import Mathlib

/-!
Verification of the photo-gallery client (src/src/App.jsx).

The file gives a shallow embedding of the client logic:
the derived tag vocabulary, the client-side filter, the tag-input
parsing, and the two effectful operations (list fetch, create)
modelled as pure functions from an explicit application state and an
explicit request outcome to the next state together with the list of
network requests issued.
-/

namespace PhotoGallery

/-- checks whether the first character list is an initial segment of the
second; building block for the substring test used by the search filter. -/
def startsWithB : List Char → List Char → Bool
  | [], _ => true
  | _ :: _, [] => false
  | a :: as, b :: bs => a == b && startsWithB as bs

/-- checks whether the first character list occurs contiguously inside the
second, as the JS includes method does on strings. -/
def containsSubB (needle : List Char) : List Char → Bool
  | [] => startsWithB needle []
  | b :: bs => startsWithB needle (b :: bs) || containsSubB needle bs

/-- embedding of the JS expression s.includes(q) on strings. -/
def strIncludes (s q : String) : Bool :=
  containsSubB q.toList s.toList

/-- embedding of the JS toLowerCase primitive: lower-case every character. -/
def strToLower (s : String) : String :=
  ⟨s.data.map Char.toLower⟩

/-- drops the leading whitespace characters of a character list. -/
def dropLeadingWS : List Char → List Char
  | [] => []
  | c :: cs => if c.isWhitespace then dropLeadingWS cs else c :: cs

/-- embedding of the JS trim primitive: drop whitespace at both ends. -/
def strTrim (s : String) : String :=
  ⟨((dropLeadingWS (dropLeadingWS s.data).reverse)).reverse⟩

/-- splits a character list at every comma, as the JS split method does
with a one-character separator; the empty input yields one empty token. -/
def splitOnCommaCL : List Char → List (List Char)
  | [] => [[]]
  | c :: cs =>
    let rest := splitOnCommaCL cs
    if c == ',' then [] :: rest
    else (c :: rest.headD []) :: rest.tail

/-- a photo record as delivered by the backend; description and tags may be
absent, which the client must tolerate. -/
structure Photo where
  id : Nat
  title : String
  description : Option String
  image_url : String
  tags : Option (List String)
  featured : Bool
deriving DecidableEq

/-- the JS Set add operation on an insertion-ordered set represented as a
duplicate-free list: append the element unless already present. -/
def insertUnique (acc : List String) (x : String) : List String :=
  if x ∈ acc then acc else acc ++ [x]

/-- embedding of the allTags memo in App.jsx: scan every photo in list
order, add each of its tags (an absent tags field contributing nothing) to
an insertion-ordered set, and prepend the sentinel "All". -/
def allTags (photos : List Photo) : List String :=
  "All" :: photos.foldl (fun acc p => (p.tags.getD []).foldl insertUnique acc) []

/-- the flattened sequence of tags obtained by scanning photos in list
order and each photo tag sequence in its given order. -/
def tagScan (photos : List Photo) : List String :=
  (photos.map (fun p => p.tags.getD [])).flatten

/-- scans a tag list keeping each tag not seen before and recording it as
seen; helper for the spec-side description of the tag vocabulary. -/
def firstSeenAux : List String → List String → List String
  | [], _ => []
  | x :: xs, seen =>
    if x ∈ seen then firstSeenAux xs seen
    else x :: firstSeenAux xs (seen ++ [x])

/-- Modelled from the spec words for the tag vocabulary: keep the first
occurrence of every tag and drop all later duplicates, preserving
first-seen order. -/
def firstSeenDedup (l : List String) : List String :=
  firstSeenAux l []

/-- embedding of the tagMatch condition of the filtered memo in App.jsx. -/
def tagMatch (selectedTag : String) (p : Photo) : Bool :=
  selectedTag == "All" || (p.tags.getD []).contains selectedTag

/-- embedding of the qMatch condition of the filtered memo in App.jsx: the
trimmed lower-cased query is empty, or occurs in the lower-cased title or
in the lower-cased description (missing description read as empty). -/
def qMatch (query : String) (p : Photo) : Bool :=
  let q := strToLower (strTrim query)
  q == "" || strIncludes (strToLower p.title) q
    || strIncludes (strToLower (p.description.getD "")) q

/-- embedding of the filtered memo in App.jsx. -/
def filtered (photos : List Photo) (selectedTag query : String) : List Photo :=
  photos.filter (fun p => tagMatch selectedTag p && qMatch query p)

/-- Modelled from the spec words in section 4.2: the inclusion predicate of
the filtered view, written independently of the code for comparison. -/
def specIncluded (t q : String) (p : Photo) : Bool :=
  (t == "All" || (p.tags.getD []).contains t)
    && (strToLower (strTrim q) == ""
        || strIncludes (strToLower p.title) (strToLower (strTrim q))
        || strIncludes (strToLower (p.description.getD "")) (strToLower (strTrim q)))

/-- embedding of the tag-input parsing in handleAdd: split the
comma-separated input, trim every token, drop tokens empty after the trim,
and keep duplicates. -/
def parseTags (s : String) : List String :=
  (((splitOnCommaCL s.data).map (fun t => strTrim ⟨t⟩))).filter (fun t => t ≠ "")

/-- the JSON body posted by the create operation; a none description means
the field is omitted from the payload. -/
structure Payload where
  title : String
  description : Option String
  image_url : String
  tags : List String
  featured : Bool
deriving DecidableEq

/-- the whole client-local state of the App component. -/
structure AppState where
  loading : Bool
  photos : List Photo
  error : String
  title : String
  description : String
  imageUrl : String
  tags : String
  featured : Bool
  selectedTag : String
  showFeaturedOnly : Bool
  query : String
deriving DecidableEq

/-- the query parameters of a list fetch: featured=true exactly when the
featured-only toggle is on, nothing otherwise. -/
def fetchParams (showFeaturedOnly : Bool) : List (String × String) :=
  if showFeaturedOnly then [("featured", "true")] else []

/-- serialization of query parameters as URLSearchParams.toString does for
parameter names and values that need no escaping. -/
def serializeParams (ps : List (String × String)) : String :=
  String.intercalate "&" (ps.map (fun kv => kv.1 ++ "=" ++ kv.2))

/-- the URL of a list fetch as built in fetchPhotos. -/
def photosUrl (baseUrl : String) (showFeaturedOnly : Bool) : String :=
  baseUrl ++ ("/api/photos?" ++ serializeParams (fetchParams showFeaturedOnly))

/-- outcome of a list fetch: an ok response carrying decoded data, a
response whose status is not ok, or an exception (network failure, body
decoding failure) carrying its message. -/
inductive FetchOutcome where
  | success (data : List Photo)
  | httpError
  | thrown (msg : String)
deriving DecidableEq

/-- true on the outcomes in which the list fetch did not succeed. -/
def FetchOutcome.isFailure : FetchOutcome → Bool
  | .success _ => false
  | .httpError => true
  | .thrown _ => true

/-- the message of the exception that the fetchPhotos catch block
receives in each failing outcome. -/
def fetchFailMsg : FetchOutcome → String
  | .success _ => ""
  | .httpError => "Failed to load photos"
  | .thrown msg => msg

/-- a network request issued by the client. -/
inductive Request where
  | listPhotos (params : List (String × String))
  | createPhoto (payload : Payload)
deriving DecidableEq

/-- true exactly on list-fetch requests. -/
def Request.isListReq : Request → Bool
  | .listPhotos _ => true
  | .createPhoto _ => false

/-- embedding of fetchPhotos in App.jsx: set loading, clear the error,
issue the list request for the current featured-only flag, then either
store the data, or surface the generic message on a non-ok status, or
surface the exception message; loading is always reset at the end. -/
def fetchPhotos (st : AppState) (outcome : FetchOutcome) : AppState × List Request :=
  let st1 : AppState := { st with loading := true, error := "" }
  let req := Request.listPhotos (fetchParams st.showFeaturedOnly)
  match outcome with
  | .success data => ({ st1 with photos := data, loading := false }, [req])
  | .httpError => ({ st1 with error := "Failed to load photos", loading := false }, [req])
  | .thrown msg => ({ st1 with error := msg, loading := false }, [req])

/-- the payload built by handleAdd: description is omitted when the input
is empty (the JS or-with-undefined idiom), tags are parsed from the
comma-separated input. -/
def mkPayload (st : AppState) : Payload :=
  { title := st.title
    description := if st.description = "" then none else some st.description
    image_url := st.imageUrl
    tags := parseTags st.tags
    featured := st.featured }

/-- outcome of the create request. -/
inductive CreateOutcome where
  | ok
  | httpError
  | thrown (msg : String)
deriving DecidableEq

/-- embedding of handleAdd in App.jsx: clear the error; reject an empty
title or image URL before any request; otherwise post the payload; on a
non-ok status surface the save error; on success reset the form fields and
run fetchPhotos with the current featured-only flag. The returned list
collects the requests issued, in order. -/
def handleAdd (st : AppState) (co : CreateOutcome) (fo : FetchOutcome) :
    AppState × List Request :=
  let st1 : AppState := { st with error := "" }
  if st.title = "" ∨ st.imageUrl = "" then
    ({ st1 with error := "Title and Image URL are required" }, [])
  else
    let createReq := Request.createPhoto (mkPayload st)
    match co with
    | .ok =>
      let st2 : AppState :=
        { st1 with title := "", description := "", imageUrl := "", tags := "", featured := false }
      let res := fetchPhotos st2 fo
      (res.1, createReq :: res.2)
    | .httpError => ({ st1 with error := "Failed to save photo" }, [createReq])
    | .thrown msg => ({ st1 with error := msg }, [createReq])

/-- a concrete state used to instantiate theorems with hypotheses. -/
def sampleState : AppState :=
  { loading := false, photos := [], error := "", title := "", description := "",
    imageUrl := "", tags := "", featured := false, selectedTag := "All",
    showFeaturedOnly := false, query := "" }

/-- a concrete photo without a tags field. -/
def untaggedPhoto : Photo :=
  { id := 7, title := "Sunset", description := none,
    image_url := "http://x/s.jpg", tags := none, featured := false }

/-- a concrete state whose required form fields are filled. -/
def validState : AppState :=
  { loading := false, photos := [], error := "", title := "Sunset",
    description := "over the bay", imageUrl := "http://x/s.jpg",
    tags := "beach, travel", featured := true, selectedTag := "All",
    showFeaturedOnly := true, query := "" }

theorem foldl_insertUnique (l : List String) :
    ∀ acc : List String, l.foldl insertUnique acc = acc ++ firstSeenAux l acc := by
  induction l with
  | nil => intro acc; simp [firstSeenAux]
  | cons x xs ih =>
    intro acc
    by_cases hx : x ∈ acc
    · simp only [List.foldl_cons, insertUnique, if_pos hx, firstSeenAux, ih]
    · simp only [List.foldl_cons, insertUnique, if_neg hx, firstSeenAux, ih,
        List.append_assoc, List.singleton_append]

theorem foldl_insertUnique_flatten (photos : List Photo) :
    ∀ acc : List String,
      photos.foldl (fun acc p => (p.tags.getD []).foldl insertUnique acc) acc
        = (tagScan photos).foldl insertUnique acc := by
  induction photos with
  | nil => intro acc; simp [tagScan]
  | cons p ps ih =>
    intro acc
    simp only [List.foldl_cons, tagScan, List.map_cons, List.flatten_cons,
      List.foldl_append, ih]

theorem mem_firstSeenAux (a : String) (l : List String) :
    ∀ seen : List String, a ∈ firstSeenAux l seen ↔ a ∈ l ∧ a ∉ seen := by
  induction l with
  | nil => intro seen; simp [firstSeenAux]
  | cons x xs ih =>
    intro seen
    by_cases hx : x ∈ seen
    · rw [firstSeenAux, if_pos hx, ih]
      constructor
      · rintro ⟨ha, hs⟩; exact ⟨List.mem_cons_of_mem _ ha, hs⟩
      · rintro ⟨ha, hs⟩
        rcases List.mem_cons.mp ha with h | h
        · exact absurd (h ▸ hx) hs
        · exact ⟨h, hs⟩
    · rw [firstSeenAux, if_neg hx]
      by_cases hax : a = x
      · subst hax; simp [hx]
      · simp only [List.mem_cons, hax, false_or, ih, List.mem_append,
          List.mem_singleton, or_iff_left hax]
        tauto

theorem nodup_firstSeenAux (l : List String) :
    ∀ seen : List String, (firstSeenAux l seen).Nodup := by
  induction l with
  | nil => intro seen; simp [firstSeenAux]
  | cons x xs ih =>
    intro seen
    by_cases hx : x ∈ seen
    · rw [firstSeenAux, if_pos hx]; exact ih seen
    · rw [firstSeenAux, if_neg hx]
      refine List.nodup_cons.mpr ⟨fun hmem => ?_, ih _⟩
      exact ((mem_firstSeenAux x xs _).mp hmem).2 (by simp)

/-- Claim C2: the tag vocabulary computed by allTags is the sentinel All
followed by the first-seen deduplication of the flattened tag scan; that
tail holds each distinct tag exactly once (it is duplicate-free and has
exactly the tags occurring in the scan). -/
theorem allTags_correct (photos : List Photo) :
    allTags photos = "All" :: firstSeenDedup (tagScan photos)
    ∧ (allTags photos).head? = some "All"
    ∧ (firstSeenDedup (tagScan photos)).Nodup
    ∧ (∀ t, t ∈ firstSeenDedup (tagScan photos) ↔ t ∈ tagScan photos) := by
  have hmain : allTags photos = "All" :: firstSeenDedup (tagScan photos) := by
    rw [allTags, foldl_insertUnique_flatten, foldl_insertUnique, firstSeenDedup,
      List.nil_append]
  refine ⟨hmain, by rw [hmain]; rfl, nodup_firstSeenAux _ _, fun t => ?_⟩
  rw [firstSeenDedup, mem_firstSeenAux]
  simp

/-- Claim C1: the filtered view is exactly the photos satisfying the
spec-side inclusion predicate (tag match and text match), each photo is a
member of the result precisely when it is in the input and satisfies the
predicate, and the result is a sublist of the input, hence keeps the input
order. -/
theorem filtered_correct (photos : List Photo) (t q : String) :
    filtered photos t q = photos.filter (fun p => specIncluded t q p)
    ∧ (∀ p, p ∈ filtered photos t q ↔ p ∈ photos ∧ specIncluded t q p = true)
    ∧ List.Sublist (filtered photos t q) photos := by
  have hpred : (fun p => tagMatch t p && qMatch q p) = fun p => specIncluded t q p := by
    funext p; rfl
  refine ⟨by rw [filtered, hpred], fun p => ?_, List.filter_sublist _⟩
  rw [filtered, hpred, List.mem_filter]

/-- Claim C3: the payload built for the create operation carries the tags
parsed from the comma-separated input by trimming each comma-separated
token and dropping the tokens that are empty after the trim; the spec
example parses as stated, and duplicates are kept. -/
theorem create_tags_parsing (st : AppState) :
    (mkPayload st).tags = parseTags st.tags
    ∧ parseTags "travel, , family,  nature ," = ["travel", "family", "nature"]
    ∧ parseTags "travel, travel" = ["travel", "travel"] :=
  ⟨rfl, by decide, by decide⟩

/-- Claim C4: submitting the form while the title or the image URL is
empty issues no request and sets the error to a fixed non-empty message;
every other piece of state is untouched. -/
theorem handleAdd_rejects_empty (st : AppState) (co : CreateOutcome) (fo : FetchOutcome)
    (h : st.title = "" ∨ st.imageUrl = "") :
    handleAdd st co fo = ({ st with error := "Title and Image URL are required" }, [])
    ∧ (handleAdd st co fo).1.error ≠ "" := by
  have heq : handleAdd st co fo = ({ st with error := "Title and Image URL are required" }, []) := by
    simp only [handleAdd, if_pos h]
  refine ⟨heq, ?_⟩
  rw [heq]
  show ("Title and Image URL are required" : String) ≠ ""
  decide

theorem handleAdd_rejects_empty_witness :
    (sampleState.title = "" ∨ sampleState.imageUrl = "")
    ∧ (handleAdd sampleState .ok .httpError
          = ({ sampleState with error := "Title and Image URL are required" }, [])
        ∧ (handleAdd sampleState .ok .httpError).1.error ≠ "") :=
  ⟨Or.inl rfl, handleAdd_rejects_empty sampleState .ok .httpError (Or.inl rfl)⟩

/-- Claim C5: after a successful create the form fields are cleared
(title, description, image URL and tags empty, featured off) and the
requests issued contain exactly one list fetch, which uses the featured
parameters of the current featured-only flag. -/
theorem handleAdd_success_resets_and_refetches (st : AppState) (fo : FetchOutcome)
    (h1 : st.title ≠ "") (h2 : st.imageUrl ≠ "") :
    (handleAdd st .ok fo).1.title = ""
    ∧ (handleAdd st .ok fo).1.description = ""
    ∧ (handleAdd st .ok fo).1.imageUrl = ""
    ∧ (handleAdd st .ok fo).1.tags = ""
    ∧ (handleAdd st .ok fo).1.featured = false
    ∧ (handleAdd st .ok fo).2.filter Request.isListReq
        = [Request.listPhotos (fetchParams st.showFeaturedOnly)] := by
  have hcond : ¬(st.title = "" ∨ st.imageUrl = "") := by
    rintro (h | h)
    · exact h1 h
    · exact h2 h
  cases fo <;>
    simp [handleAdd, if_neg hcond, fetchPhotos, Request.isListReq, List.filter]

theorem handleAdd_success_resets_and_refetches_witness :
    (validState.title ≠ "" ∧ validState.imageUrl ≠ "")
    ∧ ((handleAdd validState .ok (.success [])).1.title = ""
      ∧ (handleAdd validState .ok (.success [])).1.description = ""
      ∧ (handleAdd validState .ok (.success [])).1.imageUrl = ""
      ∧ (handleAdd validState .ok (.success [])).1.tags = ""
      ∧ (handleAdd validState .ok (.success [])).1.featured = false
      ∧ (handleAdd validState .ok (.success [])).2.filter Request.isListReq
          = [Request.listPhotos (fetchParams validState.showFeaturedOnly)]) :=
  ⟨⟨by decide, by decide⟩,
    handleAdd_success_resets_and_refetches validState (.success []) (by decide) (by decide)⟩

/-- Claim C6: when the form passes validation, the first request issued by
handleAdd is the create request carrying the payload built from the state;
in that payload the description is omitted exactly when the description
input is empty and passed through verbatim otherwise, while title, image
URL, parsed tags and the featured flag are passed through. -/
theorem create_payload_shape (st : AppState) (co : CreateOutcome) (fo : FetchOutcome)
    (h1 : st.title ≠ "") (h2 : st.imageUrl ≠ "") :
    (handleAdd st co fo).2.head? = some (Request.createPhoto (mkPayload st))
    ∧ (mkPayload st).description
        = (if st.description = "" then none else some st.description)
    ∧ (mkPayload st).title = st.title
    ∧ (mkPayload st).image_url = st.imageUrl
    ∧ (mkPayload st).tags = parseTags st.tags
    ∧ (mkPayload st).featured = st.featured := by
  have hcond : ¬(st.title = "" ∨ st.imageUrl = "") := by
    rintro (h | h)
    · exact h1 h
    · exact h2 h
  refine ⟨?_, rfl, rfl, rfl, rfl, rfl⟩
  cases co <;> simp [handleAdd, if_neg hcond, fetchPhotos]

theorem create_payload_shape_witness :
    (validState.title ≠ "" ∧ validState.imageUrl ≠ "")
    ∧ ((handleAdd validState .ok .httpError).2.head?
          = some (Request.createPhoto (mkPayload validState))
      ∧ (mkPayload validState).description
          = (if validState.description = "" then none else some validState.description)
      ∧ (mkPayload validState).title = validState.title
      ∧ (mkPayload validState).image_url = validState.imageUrl
      ∧ (mkPayload validState).tags = parseTags validState.tags
      ∧ (mkPayload validState).featured = validState.featured) :=
  ⟨⟨by decide, by decide⟩,
    create_payload_shape validState .ok .httpError (by decide) (by decide)⟩

/-- Claim C7: the query parameters of a list fetch contain featured=true
exactly when the featured-only flag is on, and are empty otherwise, so the
request URL is the bare collection URL for the off state and the
featured-filtered URL for the on state; every run of fetchPhotos issues
exactly the list request for the current flag. -/
theorem fetch_featured_param (base : String) (f : Bool) (st : AppState) (o : FetchOutcome) :
    ((("featured", "true") ∈ fetchParams f) ↔ f = true)
    ∧ fetchParams false = []
    ∧ photosUrl base true = base ++ "/api/photos?featured=true"
    ∧ photosUrl base false = base ++ "/api/photos?"
    ∧ (fetchPhotos st o).2 = [Request.listPhotos (fetchParams st.showFeaturedOnly)] := by
  refine ⟨?_, rfl, rfl, rfl, ?_⟩
  · cases f <;> simp [fetchParams]
  · cases o <;> rfl

/-- Claim C8 counterexample: a list fetch that fails with a thrown
exception rather than a non-ok status surfaces the exception message, not
the generic load-failure message, so not every failing fetch surfaces the
generic message. -/
theorem fetch_error_generic_counterexample :
    (FetchOutcome.thrown "NetworkError when attempting to fetch resource").isFailure = true
    ∧ (fetchPhotos sampleState
          (FetchOutcome.thrown "NetworkError when attempting to fetch resource")).1.error
        ≠ "Failed to load photos" := by
  constructor
  · rfl
  · show ("NetworkError when attempting to fetch resource" : String) ≠ "Failed to load photos"
    decide

/-- Claim C8 amended: a list fetch that fails because the response status
is not ok surfaces exactly the generic message, with nothing taken from
the response body, while a fetch that fails with a thrown exception
surfaces that exception message verbatim. -/
theorem fetch_error_generic (st : AppState) (msg : String) :
    (fetchPhotos st .httpError).1.error = "Failed to load photos"
    ∧ (fetchPhotos st (.thrown msg)).1.error = msg :=
  ⟨rfl, rfl⟩

/-- Claim C9: on every failing list fetch the next state keeps the photos
and all other fields unchanged and only sets the error to the failure
message and the loading flag to false. -/
theorem fetch_failure_preserves_photos (st : AppState) (o : FetchOutcome)
    (h : o.isFailure = true) :
    (fetchPhotos st o).1 = { st with error := fetchFailMsg o, loading := false }
    ∧ (fetchPhotos st o).1.photos = st.photos := by
  cases o with
  | success d => exact absurd h (by simp [FetchOutcome.isFailure])
  | httpError => exact ⟨rfl, rfl⟩
  | thrown m => exact ⟨rfl, rfl⟩

theorem fetch_failure_preserves_photos_witness :
    FetchOutcome.httpError.isFailure = true
    ∧ ((fetchPhotos sampleState .httpError).1
          = { sampleState with error := fetchFailMsg .httpError, loading := false }
      ∧ (fetchPhotos sampleState .httpError).1.photos = sampleState.photos) :=
  ⟨rfl, fetch_failure_preserves_photos sampleState .httpError rfl⟩

/-- Claim C10: a photo without a tags field is handled totally by both
derived computations: its tag match reduces to the test that the selected
tag is the sentinel All, it contributes nothing to the tag vocabulary, and
it can appear in the filtered view only when the selected tag is All. -/
theorem untagged_photo_total (t q : String) (p : Photo) (l1 l2 : List Photo)
    (h : p.tags = none) :
    tagMatch t p = (t == "All")
    ∧ allTags (l1 ++ p :: l2) = allTags (l1 ++ l2)
    ∧ (p ∈ filtered (l1 ++ p :: l2) t q → t = "All") := by
  refine ⟨by simp [tagMatch, h, List.contains], ?_, ?_⟩
  · simp [allTags, List.foldl_append, h]
  · intro hp
    have hmem := List.mem_filter.mp hp
    have htag : tagMatch t p = true := by
      rcases Bool.and_eq_true_iff.mp hmem.2 with ⟨ht, _⟩
      exact ht
    rw [tagMatch, h] at htag
    simpa using htag

theorem untagged_photo_total_witness :
    untaggedPhoto.tags = none
    ∧ (tagMatch "beach" untaggedPhoto = ("beach" == "All")
      ∧ allTags ([] ++ untaggedPhoto :: []) = allTags ([] ++ [])
      ∧ (untaggedPhoto ∈ filtered ([] ++ untaggedPhoto :: []) "beach" "" → "beach" = "All")) :=
  ⟨rfl, untagged_photo_total "beach" "" untaggedPhoto [] [] rfl⟩

end PhotoGallery
